import Mathlib

/-! Breadboard-Robot: the browser-side input-to-command bridge (`code/web/script.js`).

A shallow embedding of `script.js`.  The page state is passed explicitly: the two
flag tables `activeKeys` and `buttonState`, the `readyState` of the one WebSocket,
the frames handed to the socket, and the console lines.  A history field `calls`
records the argument of every `sendCommand` invocation, so that "calls to
`sendCommand`" can be counted separately from "frames transmitted".

JavaScript objects are kept as insertion-ordered lists of own properties; the
properties every object literal inherits from `Object.prototype` are modelled
where the script's lookups can reach them (`keyMap[e.key]`, `obj[k] = v`).
-/

namespace BreadboardRobot

/-! ## Host environment -/

/-- The four values of `WebSocket.readyState`. -/
inductive ReadyState where
  | CONNECTING
  | OPEN
  | CLOSING
  | CLOSED
  deriving DecidableEq, Repr

/-- Exceptions a handler of the script could raise. -/
inductive JsError where
  | invalidStateError
  deriving DecidableEq, Repr

/-- The values a lookup `keyMap[e.key]` can produce: a string held by `keyMap`
itself, a built-in function or the prototype object inherited from
`Object.prototype`, or `undefined`. -/
inductive Value where
  | undefined
  | str (s : String)
  | nativeFunction (name : String)
  | objectPrototype
  deriving DecidableEq, Repr

/-- JavaScript truthiness of a looked-up value (`if (cmd)`). -/
def truthy : Value → Bool
  | .undefined => false
  | .str s => s != ""
  | .nativeFunction _ => true
  | .objectPrototype => true

/-- The property key a value is converted to when it is used as `obj[value]`. -/
def toPropertyKey : Value → String
  | .undefined => "undefined"
  | .str s => s
  | .nativeFunction name => "function " ++ name ++ "() \x7b [native code] \x7d"
  | .objectPrototype => "[object Object]"

/-- What a property read finds on `Object.prototype`, the prototype of every
object literal: the built-in methods, and the `__proto__` accessor, which
returns the prototype object itself. -/
def objectPrototypeGet (k : String) : Value :=
  if k = "constructor" then .nativeFunction "Object"
  else if k = "__proto__" then .objectPrototype
  else if k ∈ ["__defineGetter__", "__defineSetter__", "__lookupGetter__",
      "__lookupSetter__", "hasOwnProperty", "isPrototypeOf", "propertyIsEnumerable",
      "toLocaleString", "toString", "valueOf"] then .nativeFunction k
  else .undefined

/-- A flag table (`activeKeys`, `buttonState`): the own properties of the
object, in insertion order; every value the script stores is a boolean. -/
abbrev Obj := List (String × Bool)

/-- Reading `o.k` as a condition, for a name `k` that `Object.prototype` does
not define: the own property if there is one, otherwise `undefined`, which is
falsy. -/
def flag (o : Obj) (k : String) : Bool :=
  match o.lookup k with
  | some b => b
  | none => false

/-- Writing an own property: an existing one keeps its place, a new one is
appended. -/
def Obj.set : Obj → String → Bool → Obj
  | [], k, v => [(k, v)]
  | (k', v') :: rest, k, v =>
    if k' = k then (k', v) :: rest else (k', v') :: Obj.set rest k v

/-- The assignment `o[k] = v` of a boolean `v`.  For `k = "__proto__"` on an
object without such an own property the inherited setter runs, which ignores
a value that is not an object; every other name becomes (or updates) an own
property. -/
def assign (o : Obj) (k : String) (v : Bool) : Obj :=
  if k = "__proto__" ∧ o.lookup k = none then o else o.set k v

/-- The page state. -/
structure Page where
  readyState : ReadyState
  activeKeys : Obj
  buttonState : Obj
  /-- the frames handed to the open socket, oldest first -/
  frames : List String
  /-- the console lines, oldest first -/
  console : List String
  /-- history: the argument of every call of `sendCommand`, oldest first -/
  calls : List String
  deriving DecidableEq, Repr

/-- The method `connection.send(data)` of the host WebSocket: it throws while the socket
is still connecting, transmits one frame when it is open, and discards the data
once the socket is closing or closed. -/
def connectionSend (p : Page) (data : String) : Except JsError Page :=
  match p.readyState with
  | .CONNECTING => .error .invalidStateError
  | .OPEN => .ok { p with frames := p.frames ++ [data] }
  | .CLOSING => .ok p
  | .CLOSED => .ok p

/-! ## The script -/

/-- `function sendCommand(cmd)` (script.js, lines 9-14). -/
def sendCommand (p : Page) (cmd : String) : Except JsError Page :=
  let p := { p with calls := p.calls ++ [cmd] }
  if p.readyState = .OPEN then do
    let p ← connectionSend p cmd
    pure { p with console := p.console ++ ["Sent command: " ++ cmd] }
  else
    pure p

/-- `const keyMap` (lines 17-22): its own properties. -/
def keyMap : List (String × String) :=
  [("ArrowUp", "forward"), ("ArrowDown", "backward"),
   ("ArrowLeft", "turnLeft"), ("ArrowRight", "turnRight")]

/-- The lookup `keyMap[key]`: an own property first, then the prototype. -/
def keyMapGet (key : String) : Value :=
  match keyMap.lookup key with
  | some c => .str c
  | none => objectPrototypeGet key

/-- The initial content of `activeKeys` and of `buttonState` (lines 25-26). -/
def initialFlags : Obj :=
  [("forward", false), ("backward", false), ("turnLeft", false), ("turnRight", false)]

/-- The page right after the script has loaded: the socket is still connecting. -/
def initialPage : Page :=
  { readyState := .CONNECTING, activeKeys := initialFlags, buttonState := initialFlags,
    frames := [], console := [], calls := [] }

/-- `function updateCommand()` (lines 28-34). -/
def updateCommand (p : Page) : Except JsError Page :=
  if flag p.activeKeys "forward" || flag p.buttonState "forward" then sendCommand p "forward"
  else if flag p.activeKeys "backward" || flag p.buttonState "backward" then
    sendCommand p "backward"
  else if flag p.activeKeys "turnLeft" || flag p.buttonState "turnLeft" then
    sendCommand p "turnLeft"
  else if flag p.activeKeys "turnRight" || flag p.buttonState "turnRight" then
    sendCommand p "turnRight"
  else sendCommand p "stop"

/-- The two fields of a keyboard event the listeners read: `e.key` and `e.repeat`. -/
structure KeyboardEvent where
  key : String
  isRepeat : Bool
  deriving DecidableEq, Repr

/-- The `keydown` listener (lines 37-44). -/
def keydown (p : Page) (e : KeyboardEvent) : Except JsError Page :=
  if e.isRepeat then pure p
  else
    let cmd := keyMapGet e.key
    if truthy cmd then
      updateCommand { p with activeKeys := assign p.activeKeys (toPropertyKey cmd) true }
    else pure p

/-- The `keyup` listener (lines 46-52). -/
def keyup (p : Page) (e : KeyboardEvent) : Except JsError Page :=
  let cmd := keyMapGet e.key
  if truthy cmd then
    updateCommand { p with activeKeys := assign p.activeKeys (toPropertyKey cmd) false }
  else pure p

/-- `function buttonPress(cmd)` (lines 55-58). -/
def buttonPress (p : Page) (cmd : String) : Except JsError Page :=
  updateCommand { p with buttonState := assign p.buttonState cmd true }

/-- The loop `for (let k in buttonState) buttonState[k] = false`: the enumerated
names are the own properties present when the loop starts (`Object.prototype`
has no enumerable property). -/
def clearAll (o : Obj) : Obj :=
  (o.map Prod.fst).foldl (fun acc k => assign acc k false) o

/-- `function buttonRelease()` (lines 60-64). -/
def buttonRelease (p : Page) : Except JsError Page :=
  updateCommand { p with buttonState := clearAll p.buttonState }

/-- The three socket observers (lines 5-7): each only writes a console line. -/
def onopen (p : Page) : Except JsError Page :=
  pure { p with console := p.console ++ ["WebSocket open"] }

/-- The `onclose` observer. -/
def onclose (p : Page) : Except JsError Page :=
  pure { p with console := p.console ++ ["WebSocket closed"] }

/-- The `onerror` observer. -/
def onerror (p : Page) : Except JsError Page :=
  pure { p with console := p.console ++ ["WebSocket error:"] }

/-- The events the page reacts to. -/
inductive Event where
  | keydown (e : KeyboardEvent)
  | keyup (e : KeyboardEvent)
  | buttonPress (cmd : String)
  | buttonRelease
  | socketOpen
  | socketClose
  | socketError
  deriving DecidableEq, Repr

/-- Dispatch of one event to its handler. -/
def handle (p : Page) : Event → Except JsError Page
  | .keydown e => keydown p e
  | .keyup e => keyup p e
  | .buttonPress cmd => buttonPress p cmd
  | .buttonRelease => buttonRelease p
  | .socketOpen => onopen p
  | .socketClose => onclose p
  | .socketError => onerror p

/-- A run of the page: events are handled one at a time, to completion; before
each one the environment fixes the socket's `readyState`.  An exception escaping
a handler would end the run with that error. -/
def run (p : Page) : List (ReadyState × Event) → Except JsError Page
  | [] => pure p
  | (rs, e) :: rest => do
    let p ← handle { p with readyState := rs } e
    run p rest

/-! ## The priority rule, as the specification words it -/

/-- The four command names in their fixed priority order. -/
def priority : List String := ["forward", "backward", "turnLeft", "turnRight"]

/-- The combined flag of a command: `activeKeys[c] OR buttonState[c]`. -/
def combined (p : Page) (c : String) : Bool :=
  flag p.activeKeys c || flag p.buttonState c

/-- The command the specification asks for: the first one, in priority order,
whose combined flag is true, and `"stop"` when there is none. -/
def resolve (p : Page) : String :=
  (priority.find? (combined p)).getD "stop"

/-- The five literal payloads of the wire protocol. -/
def payloads : List String := ["forward", "backward", "turnLeft", "turnRight", "stop"]

/-- The events the specification calls state-changing: a non-repeat keydown of
one of the four mapped keys, a keyup of a mapped key, `buttonPress` with a
valid command name, and `buttonRelease`. -/
def stateChanging : Event → Bool
  | .keydown e => !e.isRepeat && (keyMap.lookup e.key).isSome
  | .keyup e => (keyMap.lookup e.key).isSome
  | .buttonPress cmd => decide (cmd ∈ priority)
  | .buttonRelease => true
  | _ => false

/-! ## Derived pages and sample states -/

/-- The page `sendCommand p cmd` leaves behind. -/
def afterSend (p : Page) (cmd : String) : Page :=
  if p.readyState = .OPEN then
    { p with frames := p.frames ++ [cmd], console := p.console ++ ["Sent command: " ++ cmd],
             calls := p.calls ++ [cmd] }
  else { p with calls := p.calls ++ [cmd] }

/-- The command the keyboard alone asks for: the highest-priority command among
the set `activeKeys` flags, and `"stop"` when none is set. -/
def keyboardCommand (activeKeys : Obj) : String :=
  (priority.find? (flag activeKeys)).getD "stop"

/-- The page after a handler has replaced the two tables by `a` and `b` and then
called `updateCommand`. -/
def afterUpdate (p : Page) (a b : Obj) : Page :=
  afterSend { p with activeKeys := a, buttonState := b }
    (resolve { p with activeKeys := a, buttonState := b })

/-- An event whose `buttonPress` argument, if it is one, is a valid command name. -/
def validButton : Event → Bool
  | .buttonPress cmd => decide (cmd ∈ priority)
  | _ => true

/-- The freshly loaded page once the socket has opened. -/
def openPage : Page := { initialPage with readyState := .OPEN }

/-- A page with the ArrowDown key held and the on-screen turnLeft button pressed. -/
def heldPage : Page :=
  { readyState := .OPEN,
    activeKeys := [("forward", false), ("backward", true), ("turnLeft", false),
      ("turnRight", false)],
    buttonState := [("forward", false), ("backward", false), ("turnLeft", true),
      ("turnRight", false)],
    frames := [], console := [], calls := [] }

/-- The tables a handler hands to `updateCommand`, computed from the two tables
and the event alone; `none` when the handler returns without calling it. -/
def nextTables (a b : Obj) : Event → Option (Obj × Obj)
  | .keydown e =>
    if e.isRepeat then none
    else if truthy (keyMapGet e.key) then
      some (assign a (toPropertyKey (keyMapGet e.key)) true, b)
    else none
  | .keyup e =>
    if truthy (keyMapGet e.key) then
      some (assign a (toPropertyKey (keyMapGet e.key)) false, b)
    else none
  | .buttonPress cmd => some (a, assign b cmd true)
  | .buttonRelease => some (a, clearAll b)
  | _ => none

/-- The console line a socket observer writes. -/
def logged : Event → List String
  | .socketOpen => ["WebSocket open"]
  | .socketClose => ["WebSocket closed"]
  | .socketError => ["WebSocket error:"]
  | _ => []

/-- The page `heldPage` with the contents of the two tables exchanged. -/
def swappedPage : Page :=
  { heldPage with activeKeys := heldPage.buttonState, buttonState := heldPage.activeKeys }

/-! ## Lemmas on `sendCommand` and `updateCommand` -/

theorem sendCommand_eq (p : Page) (cmd : String) :
    sendCommand p cmd = .ok (afterSend p cmd) := by
  cases hrs : p.readyState <;> simp [sendCommand, afterSend, connectionSend, hrs] <;> rfl

theorem updateCommand_eq_resolve (p : Page) :
    updateCommand p = sendCommand p (resolve p) := by
  simp only [updateCommand, resolve, priority, List.find?, combined]
  cases flag p.activeKeys "forward" <;> cases flag p.buttonState "forward" <;>
  cases flag p.activeKeys "backward" <;> cases flag p.buttonState "backward" <;>
  cases flag p.activeKeys "turnLeft" <;> cases flag p.buttonState "turnLeft" <;>
  cases flag p.activeKeys "turnRight" <;> cases flag p.buttonState "turnRight" <;>
  rfl

theorem updateCommand_eq (p : Page) :
    updateCommand p = .ok (afterSend p (resolve p)) := by
  rw [updateCommand_eq_resolve, sendCommand_eq]

/-! ## Lemmas on the flag tables -/

theorem flag_nil (k : String) : flag [] k = false := rfl

theorem flag_cons (k' : String) (v' : Bool) (o : Obj) (k : String) :
    flag ((k', v') :: o) k = if k = k' then v' else flag o k := by
  by_cases h : k = k'
  · subst h; simp [flag, List.lookup]
  · have : (k == k') = false := by simpa using h
    simp [flag, List.lookup, this, h]

theorem flag_set_same (o : Obj) (k : String) (v : Bool) : flag (o.set k v) k = v := by
  induction o with
  | nil => simp [Obj.set, flag_cons]
  | cons kv rest ih =>
    obtain ⟨k', v'⟩ := kv
    by_cases h : k' = k
    · simp [Obj.set, h, flag_cons]
    · have h' : ¬ k = k' := fun e => h e.symm
      simp [Obj.set, h, flag_cons, h', ih]

theorem flag_set_other (o : Obj) (k k' : String) (v : Bool) (h : k' ≠ k) :
    flag (o.set k v) k' = flag o k' := by
  induction o with
  | nil => simp [Obj.set, flag_cons, h, flag_nil]
  | cons kv rest ih =>
    obtain ⟨k₀, v₀⟩ := kv
    by_cases h₀ : k₀ = k
    · subst h₀; simp [Obj.set, flag_cons, h]
    · simp [Obj.set, h₀, flag_cons, ih]

theorem flag_of_lookup_none (o : Obj) (k : String) (h : o.lookup k = none) :
    flag o k = false := by
  simp [flag, h]

theorem flag_assign_other (o : Obj) (k k' : String) (v : Bool) (h : k' ≠ k) :
    flag (assign o k v) k' = flag o k' := by
  unfold assign
  split
  · rfl
  · exact flag_set_other o k k' v h

theorem flag_assign_same (o : Obj) (k : String) (v : Bool) (h : k ≠ "__proto__") :
    flag (assign o k v) k = v := by
  simp [assign, h, flag_set_same]

theorem flag_assign_false_same (o : Obj) (k : String) : flag (assign o k false) k = false := by
  unfold assign
  split
  · next h => exact flag_of_lookup_none o k h.2
  · exact flag_set_same o k false

theorem flag_foldl_assign_false (ks : List String) (o : Obj) (k : String) :
    flag (ks.foldl (fun acc k => assign acc k false) o) k =
      if k ∈ ks then false else flag o k := by
  induction ks generalizing o with
  | nil => simp
  | cons k₀ rest ih =>
    rw [List.foldl_cons, ih]
    by_cases hr : k ∈ rest
    · simp [hr]
    · by_cases h₀ : k = k₀
      · subst h₀; simp [hr, flag_assign_false_same]
      · simp [hr, h₀, flag_assign_other _ _ _ _ h₀]

theorem lookup_none_of_not_mem (o : Obj) (k : String) (h : k ∉ o.map Prod.fst) :
    o.lookup k = none := by
  induction o with
  | nil => rfl
  | cons kv rest ih =>
    obtain ⟨k₀, v₀⟩ := kv
    simp only [List.map_cons, List.mem_cons, not_or] at h
    have : (k == k₀) = false := by simpa using h.1
    simp [List.lookup, this, ih h.2]

theorem flag_clearAll (o : Obj) (k : String) : flag (clearAll o) k = false := by
  unfold clearAll
  rw [flag_foldl_assign_false]
  split
  · rfl
  · next h => exact flag_of_lookup_none o k (lookup_none_of_not_mem o k h)

/-! ## The priority rule -/

theorem afterSend_calls (p : Page) (cmd : String) :
    (afterSend p cmd).calls = p.calls ++ [cmd] := by
  unfold afterSend; split <;> rfl

theorem afterSend_frames (p : Page) (cmd : String) :
    (afterSend p cmd).frames = if p.readyState = .OPEN then p.frames ++ [cmd] else p.frames := by
  unfold afterSend; split <;> rfl

theorem afterSend_activeKeys (p : Page) (cmd : String) :
    (afterSend p cmd).activeKeys = p.activeKeys := by
  unfold afterSend; split <;> rfl

theorem afterSend_buttonState (p : Page) (cmd : String) :
    (afterSend p cmd).buttonState = p.buttonState := by
  unfold afterSend; split <;> rfl

theorem afterSend_readyState (p : Page) (cmd : String) :
    (afterSend p cmd).readyState = p.readyState := by
  unfold afterSend; split <;> rfl

theorem find_priority_spec (f : String → Bool) (c : String)
    (h : priority.find? f = some c) :
    f c = true ∧
      ∀ c' ∈ priority, f c' = true → priority.indexOf c ≤ priority.indexOf c' := by
  simp only [priority, List.find?] at h
  cases h1 : f "forward" <;> cases h2 : f "backward" <;> cases h3 : f "turnLeft" <;>
    cases h4 : f "turnRight" <;> simp only [h1, h2, h3, h4] at h <;> cases h <;>
    (refine ⟨by assumption, ?_⟩
     intro c' hc' hf
     simp only [priority, List.mem_cons, List.mem_singleton, List.not_mem_nil, or_false] at hc'
     rcases hc' with rfl | rfl | rfl | rfl <;>
       first
       | decide
       | (simp [h1, h2, h3, h4] at hf))

theorem find_priority_isSome (f : String → Bool)
    (h : ∃ c ∈ priority, f c = true) : ∃ c, priority.find? f = some c := by
  obtain ⟨c, hc, hf⟩ := h
  have : (priority.find? f).isSome = true := by
    rw [List.find?_isSome]; exact ⟨c, hc, hf⟩
  exact Option.isSome_iff_exists.mp this

/-- C1: whenever at least one of the eight flags is set, `updateCommand` calls
`sendCommand` once, with the first command in the order forward, backward,
turnLeft, turnRight whose combined flag (`activeKeys[c] || buttonState[c]`) is
set; that command is the highest-priority one among all commands whose
combined flag is set. -/
theorem updateCommand_sends_highest_priority (p : Page)
    (h : ∃ c ∈ priority, flag p.activeKeys c = true ∨ flag p.buttonState c = true) :
    ∃ c p', priority.find? (combined p) = some c ∧
      updateCommand p = .ok p' ∧ p'.calls = p.calls ++ [c] ∧
      combined p c = true ∧
      ∀ c' ∈ priority, combined p c' = true → priority.indexOf c ≤ priority.indexOf c' := by
  have h' : ∃ c ∈ priority, combined p c = true := by
    obtain ⟨c, hc, hf⟩ := h
    exact ⟨c, hc, by simpa [combined] using hf⟩
  obtain ⟨c, hc⟩ := find_priority_isSome (combined p) h'
  have hs := find_priority_spec (combined p) c hc
  refine ⟨c, afterSend p c, hc, ?_, afterSend_calls p c, hs.1, hs.2⟩
  rw [updateCommand_eq, resolve, hc]; rfl

theorem updateCommand_sends_highest_priority_witness :
    ∃ c p', priority.find? (combined heldPage) = some c ∧
      updateCommand heldPage = .ok p' ∧ p'.calls = heldPage.calls ++ [c] ∧
      combined heldPage c = true ∧
      ∀ c' ∈ priority, combined heldPage c' = true →
        priority.indexOf c ≤ priority.indexOf c' :=
  updateCommand_sends_highest_priority heldPage ⟨"backward", by decide, Or.inl (by decide)⟩

theorem resolve_eq_stop (p : Page)
    (ha : ∀ c ∈ priority, flag p.activeKeys c = false)
    (hb : ∀ c ∈ priority, flag p.buttonState c = false) : resolve p = "stop" := by
  have h : priority.find? (combined p) = none := by
    rw [List.find?_eq_none]
    intro c hc
    simp [combined, ha c hc, hb c hc]
  simp [resolve, h]

/-- C2: when the four `activeKeys` flags and the four `buttonState` flags are all
false, `updateCommand` calls `sendCommand` once, with exactly the string
`"stop"`. -/
theorem updateCommand_sends_stop (p : Page)
    (ha : ∀ c ∈ priority, flag p.activeKeys c = false)
    (hb : ∀ c ∈ priority, flag p.buttonState c = false) :
    ∃ p', updateCommand p = .ok p' ∧ p'.calls = p.calls ++ ["stop"] := by
  refine ⟨afterSend p "stop", ?_, afterSend_calls p "stop"⟩
  rw [updateCommand_eq, resolve_eq_stop p ha hb]

theorem updateCommand_sends_stop_witness :
    ∃ p', updateCommand initialPage = .ok p' ∧ p'.calls = initialPage.calls ++ ["stop"] :=
  updateCommand_sends_stop initialPage (by decide) (by decide)

/-- C3: a keydown event whose repeat flag is set returns at once, for every
state and every key identifier: the page is left exactly as it was, so
`sendCommand` is not called and neither flag table changes. -/
theorem keydown_repeat_ignored (p : Page) (key : String) :
    keydown p ⟨key, true⟩ = .ok p ∧
      ∀ p', keydown p ⟨key, true⟩ = .ok p' →
        p'.calls = p.calls ∧ p'.frames = p.frames ∧
        p'.activeKeys = p.activeKeys ∧ p'.buttonState = p.buttonState := by
  have h : keydown p ⟨key, true⟩ = .ok p := by simp [keydown]; rfl
  refine ⟨h, ?_⟩
  intro p' hp'
  rw [h] at hp'
  cases hp'
  exact ⟨rfl, rfl, rfl, rfl⟩

theorem resolve_of_buttons_clear (p : Page)
    (hb : ∀ c, flag p.buttonState c = false) : resolve p = keyboardCommand p.activeKeys := by
  have : combined p = flag p.activeKeys := by
    funext c; simp [combined, hb c]
  simp [resolve, keyboardCommand, this]

/-- C4: for every prior content of `buttonState`, `buttonRelease` calls
`sendCommand` once, with a command that is computed from `activeKeys` alone:
`"stop"` when no `activeKeys` flag is set, and otherwise the highest-priority
command (forward, backward, turnLeft, turnRight) among the set `activeKeys`
flags. -/
theorem buttonRelease_sends_keyboard_command (p : Page) :
    ∃ p', buttonRelease p = .ok p' ∧
      p'.calls = p.calls ++ [keyboardCommand p.activeKeys] ∧
      ((∀ c ∈ priority, flag p.activeKeys c = false) →
        keyboardCommand p.activeKeys = "stop") ∧
      ((∃ c ∈ priority, flag p.activeKeys c = true) →
        keyboardCommand p.activeKeys ∈ priority ∧
        flag p.activeKeys (keyboardCommand p.activeKeys) = true ∧
        ∀ c' ∈ priority, flag p.activeKeys c' = true →
          priority.indexOf (keyboardCommand p.activeKeys) ≤ priority.indexOf c') := by
  refine ⟨afterSend { p with buttonState := clearAll p.buttonState }
    (keyboardCommand p.activeKeys), ?_, ?_, ?_, ?_⟩
  · rw [buttonRelease, updateCommand_eq, resolve_of_buttons_clear]
    intro c; exact flag_clearAll p.buttonState c
  · rw [afterSend_calls]
  · intro h
    have : priority.find? (flag p.activeKeys) = none := by
      rw [List.find?_eq_none]; intro c hc; simp [h c hc]
    simp [keyboardCommand, this]
  · intro h
    obtain ⟨c, hc⟩ := find_priority_isSome (flag p.activeKeys) h
    have hs := find_priority_spec (flag p.activeKeys) c hc
    have hk : keyboardCommand p.activeKeys = c := by simp [keyboardCommand, hc]
    rw [hk]
    exact ⟨List.mem_of_find?_eq_some hc, hs.1, hs.2⟩

/-- C5: `sendCommand` always returns normally; it hands `cmd`, unchanged, to the
socket as one frame exactly when `readyState` is `OPEN`, and transmits nothing
in the three other states. -/
theorem sendCommand_transmits_iff_open (p : Page) (cmd : String) :
    ∃ p', sendCommand p cmd = .ok p' ∧
      p'.frames = (if p.readyState = .OPEN then p.frames ++ [cmd] else p.frames) ∧
      (p'.frames = p.frames ++ [cmd] ↔ p.readyState = .OPEN) ∧
      (p'.frames = p.frames ↔ p.readyState ≠ .OPEN) := by
  refine ⟨afterSend p cmd, sendCommand_eq p cmd, afterSend_frames p cmd, ?_, ?_⟩
  · rw [afterSend_frames]
    by_cases h : p.readyState = .OPEN <;> simp [h]
  · rw [afterSend_frames]
    by_cases h : p.readyState = .OPEN <;> simp [h]

/-! ## The event handlers -/

theorem keyMapGet_mapped (k : String) (h : (keyMap.lookup k).isSome = true) :
    ∃ c ∈ priority, keyMapGet k = .str c := by
  unfold keyMapGet
  simp only [keyMap, List.lookup] at h ⊢
  by_cases h1 : k = "ArrowUp"
  · subst h1; exact ⟨"forward", by decide, rfl⟩
  by_cases h2 : k = "ArrowDown"
  · subst h2; exact ⟨"backward", by decide, rfl⟩
  by_cases h3 : k = "ArrowLeft"
  · subst h3; exact ⟨"turnLeft", by decide, rfl⟩
  by_cases h4 : k = "ArrowRight"
  · subst h4; exact ⟨"turnRight", by decide, rfl⟩
  have e1 : (k == "ArrowUp") = false := by simpa using h1
  have e2 : (k == "ArrowDown") = false := by simpa using h2
  have e3 : (k == "ArrowLeft") = false := by simpa using h3
  have e4 : (k == "ArrowRight") = false := by simpa using h4
  simp [e1, e2, e3, e4] at h

theorem truthy_of_priority (c : String) (h : c ∈ priority) : truthy (.str c) = true := by
  simp only [priority, List.mem_cons, List.mem_singleton, List.not_mem_nil, or_false] at h
  rcases h with rfl | rfl | rfl | rfl <;> decide

theorem buttonRelease_eq (p : Page) :
    buttonRelease p = .ok (afterSend { p with buttonState := clearAll p.buttonState }
      (keyboardCommand p.activeKeys)) := by
  rw [buttonRelease, updateCommand_eq, resolve_of_buttons_clear]
  intro c; exact flag_clearAll p.buttonState c

theorem updateCommand_activeKeys (p : Page) (a : Obj) :
    updateCommand { p with activeKeys := a } = .ok (afterUpdate p a p.buttonState) := by
  rw [updateCommand_eq]; rfl

theorem updateCommand_buttonState (p : Page) (b : Obj) :
    updateCommand { p with buttonState := b } = .ok (afterUpdate p p.activeKeys b) := by
  rw [updateCommand_eq]; rfl

theorem afterUpdate_calls (p : Page) (a b : Obj) :
    (afterUpdate p a b).calls =
      p.calls ++ [resolve { p with activeKeys := a, buttonState := b }] := by
  rw [afterUpdate, afterSend_calls]

theorem afterUpdate_frames (p : Page) (a b : Obj) :
    (afterUpdate p a b).frames =
      p.frames ++ (if p.readyState = .OPEN then
        [resolve { p with activeKeys := a, buttonState := b }] else []) := by
  rw [afterUpdate, afterSend_frames]
  by_cases h : p.readyState = .OPEN <;> simp [h]

/-- Every handler either leaves calls and frames alone or rewrites the tables and
calls `updateCommand` once. -/
theorem handle_cases (p : Page) (e : Event) :
    (∃ p', handle p e = .ok p' ∧ p'.calls = p.calls ∧ p'.frames = p.frames) ∨
      ∃ a b, handle p e = .ok (afterUpdate p a b) := by
  cases e with
  | keydown e =>
    simp only [handle, keydown]
    split
    · exact Or.inl ⟨p, rfl, rfl, rfl⟩
    · split
      · exact Or.inr ⟨_, _, updateCommand_activeKeys p _⟩
      · exact Or.inl ⟨p, rfl, rfl, rfl⟩
  | keyup e =>
    simp only [handle, keyup]
    split
    · exact Or.inr ⟨_, _, updateCommand_activeKeys p _⟩
    · exact Or.inl ⟨p, rfl, rfl, rfl⟩
  | buttonPress cmd => exact Or.inr ⟨_, _, updateCommand_buttonState p _⟩
  | buttonRelease => exact Or.inr ⟨_, _, updateCommand_buttonState p _⟩
  | socketOpen => exact Or.inl ⟨_, rfl, rfl, rfl⟩
  | socketClose => exact Or.inl ⟨_, rfl, rfl, rfl⟩
  | socketError => exact Or.inl ⟨_, rfl, rfl, rfl⟩

theorem handle_stateChanging (p : Page) (e : Event) (h : stateChanging e = true) :
    ∃ a b, handle p e = .ok (afterUpdate p a b) := by
  cases e with
  | keydown e =>
    simp only [stateChanging, Bool.and_eq_true, Bool.not_eq_true'] at h
    obtain ⟨c, hc, hk⟩ := keyMapGet_mapped e.key h.2
    refine ⟨assign p.activeKeys c true, p.buttonState, ?_⟩
    simp only [handle, keydown, h.1, hk, truthy_of_priority c hc, toPropertyKey]
    exact updateCommand_activeKeys p _
  | keyup e =>
    simp only [stateChanging] at h
    obtain ⟨c, hc, hk⟩ := keyMapGet_mapped e.key h
    refine ⟨assign p.activeKeys c false, p.buttonState, ?_⟩
    simp only [handle, keyup, hk, truthy_of_priority c hc, toPropertyKey]
    exact updateCommand_activeKeys p _
  | buttonPress cmd => exact ⟨_, _, updateCommand_buttonState p _⟩
  | buttonRelease => exact ⟨_, _, updateCommand_buttonState p _⟩
  | socketOpen => simp [stateChanging] at h
  | socketClose => simp [stateChanging] at h
  | socketError => simp [stateChanging] at h

/-- C6: every event is handled without an exception and adds at most one call of
`sendCommand` and at most one transmitted frame (the frame, if any, is the
command of that call); a state-changing event (non-repeat keydown or keyup of a
mapped key, `buttonPress` with a valid name, `buttonRelease`) adds exactly one
call, whatever was sent before. -/
theorem handle_sends_at_most_once (p : Page) (e : Event) :
    ∃ p' sent, handle p e = .ok p' ∧ p'.calls = p.calls ++ sent ∧
      p'.frames = p.frames ++ (if p.readyState = .OPEN then sent else []) ∧
      sent.length ≤ 1 ∧ (stateChanging e = true → sent.length = 1) := by
  by_cases hs : stateChanging e = true
  · obtain ⟨a, b, h⟩ := handle_stateChanging p e hs
    exact ⟨_, [_], h, afterUpdate_calls p a b, afterUpdate_frames p a b, by simp, by simp⟩
  · rcases handle_cases p e with ⟨p', h, hc, hf⟩ | ⟨a, b, h⟩
    · exact ⟨p', [], h, by simp [hc], by simp [hf], by simp, fun h' => absurd h' hs⟩
    · exact ⟨_, [_], h, afterUpdate_calls p a b, afterUpdate_frames p a b, by simp,
        by simp⟩

/-! ## Keys that `keyMap` does not hold -/

/-- A key name that neither `keyMap` nor `Object.prototype` defines is ignored by
both keyboard listeners. -/
theorem key_undefined_ignored (p : Page) (e : KeyboardEvent)
    (h : keyMapGet e.key = .undefined) : keydown p e = .ok p ∧ keyup p e = .ok p := by
  constructor
  · simp only [keydown, h, truthy]
    cases e.isRepeat <;> rfl
  · simp only [keyup, h, truthy]
    rfl

/-- C7 fails on the code: `"toString"` is not one of the four keys of `keyMap`, yet
`keyMap["toString"]` finds the method inherited from `Object.prototype`, which
is truthy; both listeners then store a property named after the function's
source text in `activeKeys` and call `updateCommand`, so `sendCommand` is
called and, with the socket open, a frame is transmitted. -/
theorem unmapped_key_toString_sends :
    keyMap.lookup "toString" = none ∧
    keydown openPage ⟨"toString", false⟩ = .ok
      { readyState := .OPEN,
        activeKeys := initialFlags ++ [("function toString() \x7b [native code] \x7d", true)],
        buttonState := initialFlags,
        frames := ["stop"], console := ["Sent command: stop"], calls := ["stop"] } ∧
    keyup openPage ⟨"toString", false⟩ = .ok
      { readyState := .OPEN,
        activeKeys := initialFlags ++ [("function toString() \x7b [native code] \x7d", false)],
        buttonState := initialFlags,
        frames := ["stop"], console := ["Sent command: stop"], calls := ["stop"] } := by
  refine ⟨by decide, ?_, ?_⟩ <;> rfl

/-! ## Runs -/

theorem resolve_mem_payloads (p : Page) : resolve p ∈ payloads := by
  unfold resolve
  cases h : priority.find? (combined p) with
  | none => simp [payloads]
  | some c =>
    have hc := List.mem_of_find?_eq_some h
    simp only [priority, List.mem_cons, List.mem_singleton, List.not_mem_nil, or_false] at hc
    rcases hc with rfl | rfl | rfl | rfl <;> simp [payloads]

theorem handle_payloads (p : Page) (e : Event)
    (hc : ∀ s ∈ p.calls, s ∈ payloads) (hf : ∀ s ∈ p.frames, s ∈ payloads) :
    ∃ p', handle p e = .ok p' ∧ (∀ s ∈ p'.calls, s ∈ payloads) ∧
      ∀ s ∈ p'.frames, s ∈ payloads := by
  rcases handle_cases p e with ⟨p', h, hc', hf'⟩ | ⟨a, b, h⟩
  · exact ⟨p', h, by rw [hc']; exact hc, by rw [hf']; exact hf⟩
  · refine ⟨_, h, ?_, ?_⟩
    · intro s hs
      rw [afterUpdate_calls, List.mem_append, List.mem_singleton] at hs
      rcases hs with hs | rfl
      · exact hc s hs
      · exact resolve_mem_payloads _
    · intro s hs
      rw [afterUpdate_frames, List.mem_append] at hs
      rcases hs with hs | hs
      · exact hf s hs
      · split at hs
        · rw [List.mem_singleton] at hs; subst hs; exact resolve_mem_payloads _
        · simp at hs

theorem run_payloads (es : List (ReadyState × Event)) (p : Page)
    (hc : ∀ s ∈ p.calls, s ∈ payloads) (hf : ∀ s ∈ p.frames, s ∈ payloads) :
    ∃ p', run p es = .ok p' ∧ (∀ s ∈ p'.calls, s ∈ payloads) ∧
      ∀ s ∈ p'.frames, s ∈ payloads := by
  induction es generalizing p with
  | nil => exact ⟨p, rfl, hc, hf⟩
  | cons x rest ih =>
    obtain ⟨rs, e⟩ := x
    obtain ⟨p₁, h₁, hc₁, hf₁⟩ := handle_payloads { p with readyState := rs } e hc hf
    obtain ⟨p₂, h₂, hc₂, hf₂⟩ := ih p₁ hc₁ hf₁
    refine ⟨p₂, ?_, hc₂, hf₂⟩
    simp only [run, h₁]
    exact h₂

/-- C8: every run from the initial page, under any succession of socket states,
in which `buttonPress` only receives valid command names, completes without an
exception, and every string passed to `sendCommand`, hence every transmitted
frame, is one of the five literals forward, backward, turnLeft, turnRight,
stop. -/
theorem run_sends_only_payloads (es : List (ReadyState × Event))
    (_hv : ∀ x ∈ es, validButton x.2 = true) :
    ∃ p', run initialPage es = .ok p' ∧
      (∀ s ∈ p'.calls, s ∈ ["forward", "backward", "turnLeft", "turnRight", "stop"]) ∧
      ∀ s ∈ p'.frames, s ∈ ["forward", "backward", "turnLeft", "turnRight", "stop"] :=
  run_payloads es initialPage (by simp [initialPage]) (by simp [initialPage])

theorem run_sends_only_payloads_witness :
    ∃ p', run initialPage
        [(.OPEN, .buttonPress "turnLeft"), (.CLOSED, .keydown ⟨"ArrowUp", false⟩),
         (.OPEN, .buttonRelease)] = .ok p' ∧
      (∀ s ∈ p'.calls, s ∈ ["forward", "backward", "turnLeft", "turnRight", "stop"]) ∧
      ∀ s ∈ p'.frames, s ∈ ["forward", "backward", "turnLeft", "turnRight", "stop"] :=
  run_sends_only_payloads _ (by decide)

/-! ## The two scenarios -/

/-- C9: from the initial page with the socket open, the events keydown ArrowUp,
keydown ArrowLeft (neither a repeat), keyup ArrowUp, keyup ArrowLeft transmit
exactly the frames forward, forward, turnLeft, stop in that order, and the pair
`activeKeys.forward`, `activeKeys.turnLeft` goes through true/false, true/true,
false/true, false/false. -/
theorem arrow_keys_scenario :
    ∃ p₁ p₂ p₃ p₄,
      handle openPage (.keydown ⟨"ArrowUp", false⟩) = .ok p₁ ∧
      handle p₁ (.keydown ⟨"ArrowLeft", false⟩) = .ok p₂ ∧
      handle p₂ (.keyup ⟨"ArrowUp", false⟩) = .ok p₃ ∧
      handle p₃ (.keyup ⟨"ArrowLeft", false⟩) = .ok p₄ ∧
      (flag p₁.activeKeys "forward" = true ∧ flag p₁.activeKeys "turnLeft" = false ∧
        p₁.frames = ["forward"]) ∧
      (flag p₂.activeKeys "forward" = true ∧ flag p₂.activeKeys "turnLeft" = true ∧
        p₂.frames = ["forward", "forward"]) ∧
      (flag p₃.activeKeys "forward" = false ∧ flag p₃.activeKeys "turnLeft" = true ∧
        p₃.frames = ["forward", "forward", "turnLeft"]) ∧
      (flag p₄.activeKeys "forward" = false ∧ flag p₄.activeKeys "turnLeft" = false ∧
        p₄.frames = ["forward", "forward", "turnLeft", "stop"]) ∧
      run initialPage
        [(.OPEN, .keydown ⟨"ArrowUp", false⟩), (.OPEN, .keydown ⟨"ArrowLeft", false⟩),
         (.OPEN, .keyup ⟨"ArrowUp", false⟩), (.OPEN, .keyup ⟨"ArrowLeft", false⟩)] = .ok p₄ :=
  ⟨_, _, _, _, rfl, rfl, rfl, rfl, ⟨rfl, rfl, rfl⟩, ⟨rfl, rfl, rfl⟩, ⟨rfl, rfl, rfl⟩,
    ⟨rfl, rfl, rfl⟩, rfl⟩

theorem resolve_single_button (p : Page) (b : Obj) (c : String) (hc : c ∈ priority)
    (ha : ∀ c' ∈ priority, flag p.activeKeys c' = false)
    (hb : ∀ c' ∈ priority, flag b c' = decide (c' = c)) :
    resolve { p with buttonState := b } = c := by
  have a1 := ha "forward" (by decide)
  have a2 := ha "backward" (by decide)
  have a3 := ha "turnLeft" (by decide)
  have a4 := ha "turnRight" (by decide)
  have b1 := hb "forward" (by decide)
  have b2 := hb "backward" (by decide)
  have b3 := hb "turnLeft" (by decide)
  have b4 := hb "turnRight" (by decide)
  simp only [priority, List.mem_cons, List.mem_singleton, List.not_mem_nil, or_false] at hc
  rcases hc with rfl | rfl | rfl | rfl <;>
    simp [resolve, priority, List.find?, combined, a1, a2, a3, a4, b1, b2, b3, b4]

theorem flag_assign_true (o : Obj) (c : String) (hc : c ∈ priority)
    (ho : ∀ c' ∈ priority, flag o c' = false) :
    ∀ c' ∈ priority, flag (assign o c true) c' = decide (c' = c) := by
  intro c' hc'
  by_cases h : c' = c
  · subst h
    have hp : c' ≠ "__proto__" := by
      intro e; subst e; exact absurd hc (by decide)
    simp [flag_assign_same o c' true hp]
  · simp [flag_assign_other o c c' true h, ho c' hc', h]

/-- C10: from any page with the socket open and none of the eight flags set,
`buttonPress c` for a valid command name `c` (in particular `"turnRight"`)
transmits the frame `c`, and the `buttonRelease` that follows transmits the
frame `"stop"`. -/
theorem buttonPress_then_release (p : Page) (c : String)
    (hopen : p.readyState = .OPEN)
    (ha : ∀ c' ∈ priority, flag p.activeKeys c' = false)
    (hb : ∀ c' ∈ priority, flag p.buttonState c' = false)
    (hc : c ∈ priority) :
    ∃ p₁ p₂, buttonPress p c = .ok p₁ ∧ p₁.frames = p.frames ++ [c] ∧
      buttonRelease p₁ = .ok p₂ ∧ p₂.frames = p₁.frames ++ ["stop"] := by
  have hr : resolve { p with buttonState := assign p.buttonState c true } = c :=
    resolve_single_button p _ c hc ha (flag_assign_true p.buttonState c hc hb)
  have h₁ : buttonPress p c =
      .ok (afterSend { p with buttonState := assign p.buttonState c true } c) := by
    rw [buttonPress, updateCommand_eq, hr]
  refine ⟨_, _, h₁, ?_, buttonRelease_eq _, ?_⟩
  · rw [afterSend_frames]; simp [hopen]
  · have hk : keyboardCommand
        (afterSend { p with buttonState := assign p.buttonState c true } c).activeKeys
          = "stop" := by
      rw [afterSend_activeKeys]
      have : priority.find? (flag p.activeKeys) = none := by
        rw [List.find?_eq_none]; intro c' hc'; simp [ha c' hc']
      simp [keyboardCommand, this]
    rw [hk, afterSend_frames, afterSend_readyState]
    simp [hopen]

theorem buttonPress_then_release_witness :
    ∃ p₁ p₂, buttonPress openPage "turnRight" = .ok p₁ ∧
      p₁.frames = openPage.frames ++ ["turnRight"] ∧
      buttonRelease p₁ = .ok p₂ ∧ p₂.frames = p₁.frames ++ ["stop"] :=
  buttonPress_then_release openPage "turnRight" rfl (by decide) (by decide) (by decide)

/-! ## What each handler does to the tables -/

theorem resolve_congr (p q : Page) (ha : p.activeKeys = q.activeKeys)
    (hb : p.buttonState = q.buttonState) : resolve p = resolve q := by
  have : combined p = combined q := by
    funext c; simp [combined, ha, hb]
  simp [resolve, this]

theorem resolve_afterSend (p : Page) (cmd : String) : resolve (afterSend p cmd) = resolve p :=
  resolve_congr _ _ (afterSend_activeKeys p cmd) (afterSend_buttonState p cmd)

theorem afterUpdate_activeKeys (p : Page) (a b : Obj) : (afterUpdate p a b).activeKeys = a := by
  rw [afterUpdate, afterSend_activeKeys]

theorem afterUpdate_buttonState (p : Page) (a b : Obj) :
    (afterUpdate p a b).buttonState = b := by
  rw [afterUpdate, afterSend_buttonState]

theorem afterUpdate_resolve (p : Page) (a b : Obj) :
    resolve (afterUpdate p a b) = resolve { p with activeKeys := a, buttonState := b } := by
  rw [afterUpdate, resolve_afterSend]

theorem afterUpdate_calls_resolve (p : Page) (a b : Obj) :
    (afterUpdate p a b).calls = p.calls ++ [resolve (afterUpdate p a b)] := by
  rw [afterUpdate_resolve, afterUpdate_calls]

theorem handle_eq (p : Page) (e : Event) :
    handle p e = .ok (match nextTables p.activeKeys p.buttonState e with
      | some (a, b) => afterUpdate p a b
      | none => { p with console := p.console ++ logged e }) := by
  cases e with
  | keydown e =>
    simp only [handle, keydown, nextTables, logged, List.append_nil]
    split
    · rfl
    · split
      · exact updateCommand_activeKeys p _
      · rfl
  | keyup e =>
    simp only [handle, keyup, nextTables, logged, List.append_nil]
    split
    · exact updateCommand_activeKeys p _
    · rfl
  | buttonPress cmd => exact updateCommand_buttonState p _
  | buttonRelease => exact updateCommand_buttonState p _
  | socketOpen => rfl
  | socketClose => rfl
  | socketError => rfl

theorem keyMapGet_of_mem (k c : String) (h : (k, c) ∈ keyMap) :
    keyMapGet k = .str c ∧ c ∈ priority := by
  simp only [keyMap, List.mem_cons, List.mem_singleton, List.not_mem_nil, or_false,
    Prod.mk.injEq] at h
  rcases h with ⟨rfl, rfl⟩ | ⟨rfl, rfl⟩ | ⟨rfl, rfl⟩ | ⟨rfl, rfl⟩ <;> exact ⟨rfl, by decide⟩

theorem ne_proto_of_priority (c : String) (h : c ∈ priority) : c ≠ "__proto__" := by
  intro e; subst e; exact absurd h (by decide)

/-- C11: `keyMap` sends ArrowUp to forward, ArrowDown to backward, ArrowLeft to
turnLeft and ArrowRight to turnRight; for each entry `k ↦ c` and every prior
page, a non-repeat keydown of `k` leaves `activeKeys[c]` true and a keyup of `k`
leaves it false, every other `activeKeys` flag and the whole of `buttonState`
keep their values, and the one command sent is the priority resolution of the
updated tables. -/
theorem keyMap_keydown_keyup (p : Page) (k c : String) (r : Bool) (h : (k, c) ∈ keyMap) :
    (keyMapGet "ArrowUp" = .str "forward" ∧ keyMapGet "ArrowDown" = .str "backward" ∧
      keyMapGet "ArrowLeft" = .str "turnLeft" ∧ keyMapGet "ArrowRight" = .str "turnRight") ∧
    keyMapGet k = .str c ∧
    ∃ p₁ p₂, keydown p ⟨k, false⟩ = .ok p₁ ∧ keyup p ⟨k, r⟩ = .ok p₂ ∧
      flag p₁.activeKeys c = true ∧ flag p₂.activeKeys c = false ∧
      (∀ c', c' ≠ c → flag p₁.activeKeys c' = flag p.activeKeys c' ∧
        flag p₂.activeKeys c' = flag p.activeKeys c') ∧
      p₁.buttonState = p.buttonState ∧ p₂.buttonState = p.buttonState ∧
      p₁.calls = p.calls ++ [resolve p₁] ∧ p₂.calls = p.calls ++ [resolve p₂] := by
  obtain ⟨hk, hc⟩ := keyMapGet_of_mem k c h
  have ht := truthy_of_priority c hc
  have hp := ne_proto_of_priority c hc
  refine ⟨⟨rfl, rfl, rfl, rfl⟩, hk,
    afterUpdate p (assign p.activeKeys c true) p.buttonState,
    afterUpdate p (assign p.activeKeys c false) p.buttonState, ?_, ?_, ?_, ?_, ?_, ?_, ?_,
    afterUpdate_calls_resolve _ _ _, afterUpdate_calls_resolve _ _ _⟩
  · simp only [keydown, hk, ht, toPropertyKey]
    exact updateCommand_activeKeys p _
  · simp only [keyup, hk, ht, toPropertyKey]
    exact updateCommand_activeKeys p _
  · rw [afterUpdate_activeKeys]; exact flag_assign_same _ _ _ hp
  · rw [afterUpdate_activeKeys]; exact flag_assign_same _ _ _ hp
  · intro c' hc'
    rw [afterUpdate_activeKeys, afterUpdate_activeKeys]
    exact ⟨flag_assign_other _ _ _ _ hc', flag_assign_other _ _ _ _ hc'⟩
  · exact afterUpdate_buttonState _ _ _
  · exact afterUpdate_buttonState _ _ _

theorem keyMap_keydown_keyup_witness :
    (keyMapGet "ArrowUp" = .str "forward" ∧ keyMapGet "ArrowDown" = .str "backward" ∧
      keyMapGet "ArrowLeft" = .str "turnLeft" ∧ keyMapGet "ArrowRight" = .str "turnRight") ∧
    keyMapGet "ArrowLeft" = .str "turnLeft" ∧
    ∃ p₁ p₂, keydown heldPage ⟨"ArrowLeft", false⟩ = .ok p₁ ∧
      keyup heldPage ⟨"ArrowLeft", false⟩ = .ok p₂ ∧
      flag p₁.activeKeys "turnLeft" = true ∧ flag p₂.activeKeys "turnLeft" = false ∧
      (∀ c', c' ≠ "turnLeft" → flag p₁.activeKeys c' = flag heldPage.activeKeys c' ∧
        flag p₂.activeKeys c' = flag heldPage.activeKeys c') ∧
      p₁.buttonState = heldPage.buttonState ∧ p₂.buttonState = heldPage.buttonState ∧
      p₁.calls = heldPage.calls ++ [resolve p₁] ∧ p₂.calls = heldPage.calls ++ [resolve p₂] :=
  keyMap_keydown_keyup heldPage "ArrowLeft" "turnLeft" false (by decide)

/-- C12: each table is written only by its own handlers: the keydown and keyup
listeners return `buttonState` as it was, `buttonPress` and `buttonRelease`
return `activeKeys` as it was, and `updateCommand` and `sendCommand` return
both tables as they were; none of them raises an exception. -/
theorem tables_written_by_own_handlers (p : Page) (e : KeyboardEvent) (cmd : String) :
    (∃ p', keydown p e = .ok p' ∧ p'.buttonState = p.buttonState) ∧
    (∃ p', keyup p e = .ok p' ∧ p'.buttonState = p.buttonState) ∧
    (∃ p', buttonPress p cmd = .ok p' ∧ p'.activeKeys = p.activeKeys) ∧
    (∃ p', buttonRelease p = .ok p' ∧ p'.activeKeys = p.activeKeys) ∧
    (∃ p', updateCommand p = .ok p' ∧ p'.activeKeys = p.activeKeys ∧
      p'.buttonState = p.buttonState) ∧
    (∃ p', sendCommand p cmd = .ok p' ∧ p'.activeKeys = p.activeKeys ∧
      p'.buttonState = p.buttonState) := by
  refine ⟨?_, ?_, ⟨_, updateCommand_buttonState p _, afterUpdate_activeKeys _ _ _⟩,
    ⟨_, updateCommand_buttonState p _, afterUpdate_activeKeys _ _ _⟩,
    ⟨_, updateCommand_eq p, afterSend_activeKeys _ _, afterSend_buttonState _ _⟩,
    ⟨_, sendCommand_eq p cmd, afterSend_activeKeys _ _, afterSend_buttonState _ _⟩⟩
  · unfold keydown
    split
    · exact ⟨p, rfl, rfl⟩
    · simp only []
      split
      · exact ⟨_, updateCommand_activeKeys p _, afterUpdate_buttonState _ _ _⟩
      · exact ⟨p, rfl, rfl⟩
  · unfold keyup
    simp only []
    split
    · exact ⟨_, updateCommand_activeKeys p _, afterUpdate_buttonState _ _ _⟩
    · exact ⟨p, rfl, rfl⟩

/-- C13: for every valid command name `c` and every prior page, `buttonPress c`
leaves `buttonState[c]` true, every other `buttonState` flag and the whole of
`activeKeys` as they were, and sends once the priority resolution of the
updated tables: that is `c` exactly when no command of strictly higher
priority has its flag set in either table, and otherwise a command of strictly
higher priority whose flag is set. -/
theorem buttonPress_sets_flag_and_resolves (p : Page) (c : String) (hc : c ∈ priority) :
    ∃ p' s, buttonPress p c = .ok p' ∧
      flag p'.buttonState c = true ∧
      (∀ c', c' ≠ c → flag p'.buttonState c' = flag p.buttonState c') ∧
      p'.activeKeys = p.activeKeys ∧
      p'.calls = p.calls ++ [s] ∧ s = resolve p' ∧
      (s = c ↔ ∀ c' ∈ priority, priority.indexOf c' < priority.indexOf c →
        combined p c' = false) ∧
      (s ≠ c → s ∈ priority ∧ priority.indexOf s < priority.indexOf c ∧
        combined p s = true) := by
  have hp := ne_proto_of_priority c hc
  have hset : flag (assign p.buttonState c true) c = true := flag_assign_same _ _ _ hp
  have hoth : ∀ c', c' ≠ c →
      flag (assign p.buttonState c true) c' = flag p.buttonState c' :=
    fun c' h => flag_assign_other _ _ _ _ h
  have hqc : combined { p with buttonState := assign p.buttonState c true } c = true := by
    simp [combined, hset]
  have hqo : ∀ c', c' ≠ c →
      combined { p with buttonState := assign p.buttonState c true } c' = combined p c' := by
    intro c' h; simp [combined, hoth c' h]
  obtain ⟨s, hs⟩ := find_priority_isSome
    (combined { p with buttonState := assign p.buttonState c true }) ⟨c, hc, hqc⟩
  obtain ⟨hs1, hs2⟩ := find_priority_spec _ s hs
  have hsm : s ∈ priority := List.mem_of_find?_eq_some hs
  have hres : resolve { p with buttonState := assign p.buttonState c true } = s := by
    simp [resolve, hs]
  have hle : priority.indexOf s ≤ priority.indexOf c := hs2 c hc hqc
  have hne : s ≠ c → priority.indexOf s < priority.indexOf c := by
    intro h
    rcases Nat.lt_or_ge (priority.indexOf s) (priority.indexOf c) with hlt | hge
    · exact hlt
    · exact absurd ((List.indexOf_inj hsm hc).mp (Nat.le_antisymm hle hge)) h
  refine ⟨afterUpdate p p.activeKeys (assign p.buttonState c true), s,
    updateCommand_buttonState p _, ?_, ?_, afterUpdate_activeKeys _ _ _, ?_, ?_, ?_, ?_⟩
  · rw [afterUpdate_buttonState]; exact hset
  · intro c' h; rw [afterUpdate_buttonState]; exact hoth c' h
  · rw [afterUpdate_calls]; exact congrArg (fun x => p.calls ++ [x]) hres
  · rw [afterUpdate_resolve]; exact hres.symm
  · constructor
    · intro hsc c' hc' hlt
      subst hsc
      cases hcomb : combined p c' with
      | false => rfl
      | true =>
        have hc'ne : c' ≠ s := by
          intro e; subst e; exact absurd hlt (Nat.lt_irrefl _)
        have := hs2 c' hc' (by rw [hqo c' hc'ne]; exact hcomb)
        exact absurd (Nat.lt_of_lt_of_le hlt this) (Nat.lt_irrefl _)
    · intro hall
      by_contra hsc
      have hlt := hne hsc
      have := hall s hsm hlt
      rw [← hqo s hsc, hs1] at this
      exact absurd this (by simp)
  · intro hsc
    refine ⟨hsm, hne hsc, ?_⟩
    rw [← hqo s hsc]; exact hs1

theorem buttonPress_sets_flag_and_resolves_witness :
    ∃ p' s, buttonPress heldPage "turnRight" = .ok p' ∧
      flag p'.buttonState "turnRight" = true ∧
      (∀ c', c' ≠ "turnRight" → flag p'.buttonState c' = flag heldPage.buttonState c') ∧
      p'.activeKeys = heldPage.activeKeys ∧
      p'.calls = heldPage.calls ++ [s] ∧ s = resolve p' ∧
      (s = "turnRight" ↔ ∀ c' ∈ priority,
        priority.indexOf c' < priority.indexOf "turnRight" → combined heldPage c' = false) ∧
      (s ≠ "turnRight" → s ∈ priority ∧
        priority.indexOf s < priority.indexOf "turnRight" ∧ combined heldPage s = true) :=
  buttonPress_sets_flag_and_resolves heldPage "turnRight" (by decide)

/-! ## Clearing the button table -/

theorem set_eq_self (o : Obj) (k : String) (v : Bool) (h : o.lookup k = some v) :
    o.set k v = o := by
  induction o with
  | nil => simp at h
  | cons kv rest ih =>
    obtain ⟨k₀, v₀⟩ := kv
    by_cases h₀ : k₀ = k
    · subst h₀
      simp only [List.lookup, beq_self_eq_true, Option.some.injEq] at h
      simp [Obj.set, h]
    · have hb : (k == k₀) = false := by simpa using fun e : k = k₀ => h₀ e.symm
      simp only [List.lookup, hb] at h
      simp [Obj.set, h₀, ih h]

theorem assign_false_eq_self (o : Obj) (k : String) (h : o.lookup k = some false) :
    assign o k false = o := by
  simp [assign, h, set_eq_self o k false h]

theorem lookup_of_mem_keys (o : Obj) (k : String) (h : k ∈ o.map Prod.fst) :
    ∃ b, o.lookup k = some b := by
  cases hl : o.lookup k with
  | some b => exact ⟨b, rfl⟩
  | none =>
    exfalso
    induction o with
    | nil => simp at h
    | cons kv rest ih =>
      obtain ⟨k₀, v₀⟩ := kv
      by_cases h₀ : k = k₀
      · subst h₀; simp [List.lookup] at hl
      · have hb : (k == k₀) = false := by simpa using h₀
        simp only [List.lookup, hb] at hl
        simp only [List.map_cons, List.mem_cons, h₀, false_or] at h
        exact ih h hl

theorem foldl_assign_fixed (ks : List String) (o : Obj)
    (h : ∀ k ∈ ks, o.lookup k = some false) :
    ks.foldl (fun acc k => assign acc k false) o = o := by
  induction ks with
  | nil => rfl
  | cons k₀ rest ih =>
    rw [List.foldl_cons, assign_false_eq_self o k₀ (h k₀ (List.mem_cons_self _ _))]
    exact ih (fun k hk => h k (List.mem_cons_of_mem _ hk))

theorem clearAll_fixed (o : Obj) (h : ∀ k ∈ o.map Prod.fst, o.lookup k = some false) :
    clearAll o = o :=
  foldl_assign_fixed _ o h

theorem clearAll_idem (o : Obj) : clearAll (clearAll o) = clearAll o := by
  apply clearAll_fixed
  intro k hk
  obtain ⟨b, hb⟩ := lookup_of_mem_keys _ k hk
  have hf := flag_clearAll o k
  simp only [flag, hb] at hf
  rw [hb, hf]

/-- C14: whatever `buttonState` held, several flags at once included, after
`buttonRelease` every `buttonState` flag is false, the four command flags in
particular; and `buttonRelease` is idempotent on the tables: a second call
returns the same `activeKeys` and `buttonState` as the first. -/
theorem buttonRelease_clears_all_idempotent (p : Page) :
    ∃ p₁ p₂, buttonRelease p = .ok p₁ ∧ buttonRelease p₁ = .ok p₂ ∧
      (flag p₁.buttonState "forward" = false ∧ flag p₁.buttonState "backward" = false ∧
        flag p₁.buttonState "turnLeft" = false ∧ flag p₁.buttonState "turnRight" = false) ∧
      (∀ k, flag p₁.buttonState k = false) ∧
      p₂.buttonState = p₁.buttonState ∧ p₂.activeKeys = p₁.activeKeys := by
  have hb : (afterUpdate p p.activeKeys (clearAll p.buttonState)).buttonState =
      clearAll p.buttonState := afterUpdate_buttonState _ _ _
  refine ⟨_, _, updateCommand_buttonState p _, updateCommand_buttonState _ _, ?_, ?_, ?_, ?_⟩
  · rw [hb]
    exact ⟨flag_clearAll _ _, flag_clearAll _ _, flag_clearAll _ _, flag_clearAll _ _⟩
  · intro k; rw [hb]; exact flag_clearAll _ _
  · rw [afterUpdate_buttonState, hb, clearAll_idem]
  · rw [afterUpdate_activeKeys]

/-- C16: `updateCommand` sends once; when what it sends is `"stop"` all eight
flags are false, and when it is one of the four motion commands `c` then
`activeKeys[c]` or `buttonState[c]` is true. -/
theorem updateCommand_sends_only_held (p : Page) :
    ∃ p' s, updateCommand p = .ok p' ∧ p'.calls = p.calls ++ [s] ∧
      (s = "stop" → ∀ c ∈ priority,
        flag p.activeKeys c = false ∧ flag p.buttonState c = false) ∧
      (s ∈ priority → flag p.activeKeys s = true ∨ flag p.buttonState s = true) := by
  refine ⟨_, resolve p, updateCommand_eq p, afterSend_calls _ _, ?_, ?_⟩
  · intro hs c hc
    cases hf : priority.find? (combined p) with
    | none =>
      have := (List.find?_eq_none.mp hf) c hc
      simpa [combined] using this
    | some s =>
      have hm : s ∈ priority := List.mem_of_find?_eq_some hf
      simp only [resolve, hf, Option.getD_some] at hs
      subst hs
      exact absurd hm (by decide)
  · intro hs
    cases hf : priority.find? (combined p) with
    | none =>
      simp only [resolve, hf, Option.getD_none] at hs
      exact absurd hs (by decide)
    | some s =>
      have := (find_priority_spec _ s hf).1
      simp only [resolve, hf, Option.getD_some]
      simpa [combined] using this

/-! ## Runs with the socket open -/

theorem nextTables_of_stateChanging (a b : Obj) (e : Event) (h : stateChanging e = true) :
    ∃ a' b', nextTables a b e = some (a', b') := by
  cases e with
  | keydown e =>
    simp only [stateChanging, Bool.and_eq_true, Bool.not_eq_true'] at h
    obtain ⟨c, hc, hk⟩ := keyMapGet_mapped e.key h.2
    exact ⟨_, _, by simp only [nextTables, h.1, hk, truthy_of_priority c hc]; rfl⟩
  | keyup e =>
    simp only [stateChanging] at h
    obtain ⟨c, hc, hk⟩ := keyMapGet_mapped e.key h
    exact ⟨_, _, by simp only [nextTables, hk, truthy_of_priority c hc]; rfl⟩
  | buttonPress cmd => exact ⟨_, _, rfl⟩
  | buttonRelease => exact ⟨_, _, rfl⟩
  | socketOpen => simp [stateChanging] at h
  | socketClose => simp [stateChanging] at h
  | socketError => simp [stateChanging] at h

theorem run_cons (p : Page) (rs : ReadyState) (e : Event) (rest : List (ReadyState × Event))
    (p₁ : Page) (h : handle { p with readyState := rs } e = .ok p₁) :
    run p ((rs, e) :: rest) = run p₁ rest := by
  simp only [run, h]; rfl

theorem run_last_frame (es : List (ReadyState × Event)) (p : Page)
    (hopen : ∀ x ∈ es, x.1 = .OPEN)
    (h : p.frames.getLast? = some (resolve p) ∨ ∃ x ∈ es, stateChanging x.2 = true) :
    ∃ p', run p es = .ok p' ∧ p'.frames.getLast? = some (resolve p') := by
  induction es generalizing p with
  | nil =>
    rcases h with h | ⟨x, hx, _⟩
    · exact ⟨p, rfl, h⟩
    · simp at hx
  | cons x rest ih =>
    obtain ⟨rs, e⟩ := x
    have hrs : rs = .OPEN := hopen (rs, e) (List.mem_cons_self _ _)
    subst hrs
    have hrest : ∀ x ∈ rest, x.1 = .OPEN := fun x hx => hopen x (List.mem_cons_of_mem _ hx)
    have he := handle_eq { p with readyState := .OPEN } e
    cases hn : nextTables p.activeKeys p.buttonState e with
    | some ab =>
      obtain ⟨a, b⟩ := ab
      simp only [hn] at he
      rw [run_cons p _ e rest _ he]
      apply ih _ hrest
      left
      rw [afterUpdate_frames, afterUpdate_resolve]
      simp
    | none =>
      simp only [hn] at he
      rw [run_cons p _ e rest _ he]
      apply ih _ hrest
      rcases h with h | ⟨x, hx, hsc⟩
      · left
        have hr : resolve { p with readyState := .OPEN, console := p.console ++ logged e }
            = resolve p := resolve_congr _ p rfl rfl
        exact h.trans (congrArg some hr.symm)
      · rcases List.mem_cons.mp hx with hx | hx
        · subst hx
          obtain ⟨a', b', h'⟩ := nextTables_of_stateChanging p.activeKeys p.buttonState e hsc
          rw [hn] at h'
          exact absurd h' (by simp)
        · exact Or.inr ⟨x, hx, hsc⟩

/-- C15: after every run from the initial page during which the socket is open at
every event and which contains at least one state-changing event, the run has
completed without an exception and the most recently transmitted frame is the
priority resolution of the current `activeKeys` and `buttonState`. -/
theorem last_frame_matches_inputs (es : List (ReadyState × Event))
    (hopen : ∀ x ∈ es, x.1 = .OPEN)
    (hsc : ∃ x ∈ es, stateChanging x.2 = true) :
    ∃ p', run initialPage es = .ok p' ∧ p'.frames.getLast? = some (resolve p') :=
  run_last_frame es initialPage hopen (Or.inr hsc)

theorem last_frame_matches_inputs_witness :
    ∃ p', run initialPage
        [(.OPEN, .keydown ⟨"ArrowLeft", false⟩), (.OPEN, .buttonPress "backward"),
         (.OPEN, .keydown ⟨"ArrowLeft", true⟩), (.OPEN, .buttonRelease)] = .ok p' ∧
      p'.frames.getLast? = some (resolve p') :=
  last_frame_matches_inputs _ (by decide) ⟨(.OPEN, .buttonRelease), by decide, by decide⟩

theorem resolve_of_combined_eq (p q : Page)
    (h : ∀ c ∈ priority, combined p c = combined q c) : resolve p = resolve q := by
  have h1 := h "forward" (by decide)
  have h2 := h "backward" (by decide)
  have h3 := h "turnLeft" (by decide)
  have h4 := h "turnRight" (by decide)
  simp only [resolve, priority, List.find?, h1, h2, h3, h4]

/-- C18: the command `updateCommand` sends depends only on the pointwise OR of the
two tables: two pages whose combined flags agree on the four commands make it
send the same command, and exchanging the contents of `activeKeys` and
`buttonState` does not change the command sent. -/
theorem updateCommand_depends_on_combined (p q : Page)
    (h : ∀ c ∈ priority, combined p c = combined q c) :
    (∃ p' q' s, updateCommand p = .ok p' ∧ updateCommand q = .ok q' ∧
      p'.calls = p.calls ++ [s] ∧ q'.calls = q.calls ++ [s]) ∧
    (∃ p' r' s, updateCommand p = .ok p' ∧
      updateCommand { p with activeKeys := p.buttonState, buttonState := p.activeKeys }
        = .ok r' ∧
      p'.calls = p.calls ++ [s] ∧ r'.calls = p.calls ++ [s]) := by
  constructor
  · refine ⟨_, _, resolve p, updateCommand_eq p, updateCommand_eq q, afterSend_calls _ _, ?_⟩
    rw [afterSend_calls, resolve_of_combined_eq p q h]
  · refine ⟨_, _, resolve p, updateCommand_eq p, updateCommand_eq _, afterSend_calls _ _, ?_⟩
    rw [afterSend_calls]
    have : resolve { p with activeKeys := p.buttonState, buttonState := p.activeKeys }
        = resolve p :=
      resolve_of_combined_eq _ _ (fun c _ => by simp [combined, Bool.or_comm])
    rw [this]

theorem updateCommand_depends_on_combined_witness :
    (∃ p' q' s, updateCommand heldPage = .ok p' ∧ updateCommand swappedPage = .ok q' ∧
      p'.calls = heldPage.calls ++ [s] ∧ q'.calls = swappedPage.calls ++ [s]) ∧
    (∃ p' r' s, updateCommand heldPage = .ok p' ∧
      updateCommand { heldPage with activeKeys := heldPage.buttonState,
                                    buttonState := heldPage.activeKeys } = .ok r' ∧
      p'.calls = heldPage.calls ++ [s] ∧ r'.calls = heldPage.calls ++ [s]) :=
  updateCommand_depends_on_combined heldPage swappedPage (by decide)

/-! ## Runs under different socket states -/

theorem handle_sent (p : Page) (e : Event) :
    ∃ p' sent, handle p e = .ok p' ∧ p'.calls = p.calls ++ sent ∧
      p'.frames = p.frames ++ (if p.readyState = .OPEN then sent else []) := by
  cases hn : nextTables p.activeKeys p.buttonState e with
  | some ab =>
    obtain ⟨a, b⟩ := ab
    refine ⟨afterUpdate p a b, [_], ?_, afterUpdate_calls p a b, ?_⟩
    · rw [handle_eq, hn]
    · exact afterUpdate_frames p a b
  | none =>
    refine ⟨{ p with console := p.console ++ logged e }, [], ?_, by simp, by simp⟩
    rw [handle_eq, hn]

theorem handle_inputState (p q : Page) (e : Event) (ha : p.activeKeys = q.activeKeys)
    (hb : p.buttonState = q.buttonState) (hc : p.calls = q.calls) :
    ∃ p' q', handle p e = .ok p' ∧ handle q e = .ok q' ∧
      p'.activeKeys = q'.activeKeys ∧ p'.buttonState = q'.buttonState ∧
      p'.calls = q'.calls := by
  refine ⟨_, _, handle_eq p e, handle_eq q e, ?_⟩
  rw [← ha, ← hb]
  cases nextTables p.activeKeys p.buttonState e with
  | some ab =>
    obtain ⟨a, b⟩ := ab
    simp only [afterUpdate_activeKeys, afterUpdate_buttonState, afterUpdate_calls, hc,
      true_and]
    exact congrArg (fun x => q.calls ++ [x]) (resolve_congr _ _ rfl rfl)
  | none => exact ⟨rfl, rfl, hc⟩

theorem step_sent (p : Page) (rs : ReadyState) (e : Event) :
    ∃ p' sent, handle { p with readyState := rs } e = .ok p' ∧ p'.calls = p.calls ++ sent ∧
      p'.frames = p.frames ++ (if rs = .OPEN then sent else []) :=
  handle_sent { p with readyState := rs } e

theorem run_inputState (es₁ es₂ : List (ReadyState × Event)) (p q : Page)
    (h : es₁.map Prod.snd = es₂.map Prod.snd) (ha : p.activeKeys = q.activeKeys)
    (hb : p.buttonState = q.buttonState) (hc : p.calls = q.calls) :
    ∃ p' q', run p es₁ = .ok p' ∧ run q es₂ = .ok q' ∧
      p'.activeKeys = q'.activeKeys ∧ p'.buttonState = q'.buttonState ∧
      p'.calls = q'.calls := by
  induction es₁ generalizing es₂ p q with
  | nil =>
    cases es₂ with
    | nil => exact ⟨p, q, rfl, rfl, ha, hb, hc⟩
    | cons y rest => simp at h
  | cons x rest₁ ih =>
    cases es₂ with
    | nil => simp at h
    | cons y rest₂ =>
      obtain ⟨rs₁, e₁⟩ := x
      obtain ⟨rs₂, e₂⟩ := y
      simp only [List.map_cons, List.cons.injEq] at h
      obtain ⟨he, hrest⟩ := h
      subst he
      obtain ⟨p₁, q₁, hp₁, hq₁, ha₁, hb₁, hc₁⟩ :=
        handle_inputState { p with readyState := rs₁ } { q with readyState := rs₂ } e₁ ha hb hc
      rw [run_cons p rs₁ e₁ rest₁ p₁ hp₁, run_cons q rs₂ e₁ rest₂ q₁ hq₁]
      exact ih rest₂ p₁ q₁ hrest ha₁ hb₁ hc₁

theorem run_invariant (I : Page → Prop) (P : ReadyState × Event → Prop)
    (hstep : ∀ p rs e, P (rs, e) → I p →
      ∃ p', handle { p with readyState := rs } e = .ok p' ∧ I p')
    (es : List (ReadyState × Event)) (p : Page) (hes : ∀ x ∈ es, P x) (hp : I p) :
    ∃ p', run p es = .ok p' ∧ I p' := by
  induction es generalizing p with
  | nil => exact ⟨p, rfl, hp⟩
  | cons x rest ih =>
    obtain ⟨rs, e⟩ := x
    obtain ⟨p₁, h₁, hi₁⟩ := hstep p rs e (hes _ (List.mem_cons_self _ _)) hp
    rw [run_cons p rs e rest p₁ h₁]
    exact ih p₁ (fun x hx => hes x (List.mem_cons_of_mem _ hx)) hi₁

theorem run_append (es es' : List (ReadyState × Event)) (p p' : Page)
    (h : run p es = .ok p') : run p (es ++ es') = run p' es' := by
  induction es generalizing p with
  | nil =>
    simp only [run] at h
    cases h
    rfl
  | cons x rest ih =>
    obtain ⟨rs, e⟩ := x
    obtain ⟨p₁, _, h₁, _, _⟩ := step_sent p rs e
    rw [run_cons p rs e rest p₁ h₁] at h
    rw [List.cons_append, run_cons p rs e (rest ++ es') p₁ h₁]
    exact ih p₁ h

theorem run_frames_sublist (es : List (ReadyState × Event)) (p : Page)
    (hp : p.frames.Sublist p.calls) :
    ∃ p', run p es = .ok p' ∧ p'.frames.Sublist p'.calls := by
  refine run_invariant (fun p => p.frames.Sublist p.calls) (fun _ => True) ?_ es p
    (fun _ _ => trivial) hp
  intro p rs e _ hI
  obtain ⟨p', sent, h, hc, hf⟩ := step_sent p rs e
  refine ⟨p', h, ?_⟩
  show p'.frames.Sublist p'.calls
  rw [hc, hf]
  apply List.Sublist.append hI
  split
  · exact List.Sublist.refl _
  · exact List.nil_sublist _

theorem run_frames_open (es : List (ReadyState × Event)) (p : Page)
    (hes : ∀ x ∈ es, x.1 = .OPEN) (hp : p.frames = p.calls) :
    ∃ p', run p es = .ok p' ∧ p'.frames = p'.calls := by
  refine run_invariant (fun p => p.frames = p.calls) (fun x => x.1 = .OPEN) ?_ es p hes hp
  intro p rs e hrs hI
  obtain ⟨p', sent, h, hc, hf⟩ := step_sent p rs e
  refine ⟨p', h, ?_⟩
  have hrs' : rs = .OPEN := hrs
  subst hrs'
  show p'.frames = p'.calls
  rw [hc, hf]
  simp only [if_true]
  exact congrArg (fun x => x ++ sent) hI

theorem run_frames_not_open (es : List (ReadyState × Event)) (p : Page)
    (hes : ∀ x ∈ es, x.1 ≠ .OPEN) (hp : p.frames = []) :
    ∃ p', run p es = .ok p' ∧ p'.frames = [] := by
  refine run_invariant (fun p => p.frames = []) (fun x => x.1 ≠ .OPEN) ?_ es p hes hp
  intro p rs e hrs hI
  obtain ⟨p', sent, h, hc, hf⟩ := step_sent p rs e
  refine ⟨p', h, ?_⟩
  have hrs' : rs ≠ .OPEN := hrs
  show p'.frames = []
  rw [hf]
  simp only [hrs', if_false, List.append_nil]
  exact hI

/-- C17: two runs from the initial page over the same events, under any two
successions of socket states, both complete without an exception and end with
the same `activeKeys`, the same `buttonState` and the same sequence of commands
passed to `sendCommand`.  Only the transmitted frames depend on the socket:
they are a subsequence of those commands, all of them when the socket was open
at every event and none when it never was, and one more event appends its
command to the frames exactly when the socket is open at that event, so a
command dropped earlier is not sent again. -/
theorem input_state_independent_of_connection (es₁ es₂ : List (ReadyState × Event))
    (h : es₁.map Prod.snd = es₂.map Prod.snd) :
    ∃ p₁ p₂, run initialPage es₁ = .ok p₁ ∧ run initialPage es₂ = .ok p₂ ∧
      p₁.activeKeys = p₂.activeKeys ∧ p₁.buttonState = p₂.buttonState ∧
      p₁.calls = p₂.calls ∧
      p₁.frames.Sublist p₁.calls ∧ p₂.frames.Sublist p₂.calls ∧
      ((∀ x ∈ es₁, x.1 = .OPEN) → p₁.frames = p₁.calls) ∧
      ((∀ x ∈ es₁, x.1 ≠ .OPEN) → p₁.frames = []) ∧
      ∀ rs e, ∃ p' sent, run initialPage (es₁ ++ [(rs, e)]) = .ok p' ∧
        p'.calls = p₁.calls ++ sent ∧
        p'.frames = p₁.frames ++ (if rs = .OPEN then sent else []) := by
  obtain ⟨p₁, p₂, h₁, h₂, ha, hb, hc⟩ :=
    run_inputState es₁ es₂ initialPage initialPage h rfl rfl rfl
  refine ⟨p₁, p₂, h₁, h₂, ha, hb, hc, ?_, ?_, ?_, ?_, ?_⟩
  · obtain ⟨p', hr, hs⟩ := run_frames_sublist es₁ initialPage (List.Sublist.refl _)
    rw [h₁] at hr; cases hr; exact hs
  · obtain ⟨p', hr, hs⟩ := run_frames_sublist es₂ initialPage (List.Sublist.refl _)
    rw [h₂] at hr; cases hr; exact hs
  · intro hopen
    obtain ⟨p', hr, hs⟩ := run_frames_open es₁ initialPage hopen rfl
    rw [h₁] at hr; cases hr; exact hs
  · intro hclosed
    obtain ⟨p', hr, hs⟩ := run_frames_not_open es₁ initialPage hclosed rfl
    rw [h₁] at hr; cases hr; exact hs
  · intro rs e
    obtain ⟨p', sent, hh, hc', hf'⟩ := step_sent p₁ rs e
    refine ⟨p', sent, ?_, hc', hf'⟩
    rw [run_append es₁ [(rs, e)] initialPage p₁ h₁, run_cons p₁ rs e [] p' hh]
    rfl

theorem input_state_independent_of_connection_witness :
    ∃ p₁ p₂,
      run initialPage [(.OPEN, .keydown ⟨"ArrowUp", false⟩), (.OPEN, .buttonRelease)]
        = .ok p₁ ∧
      run initialPage [(.CLOSED, .keydown ⟨"ArrowUp", false⟩), (.OPEN, .buttonRelease)]
        = .ok p₂ ∧
      p₁.activeKeys = p₂.activeKeys ∧ p₁.buttonState = p₂.buttonState ∧
      p₁.calls = p₂.calls ∧
      p₁.frames.Sublist p₁.calls ∧ p₂.frames.Sublist p₂.calls ∧
      ((∀ x ∈ [(ReadyState.OPEN, Event.keydown ⟨"ArrowUp", false⟩),
          (ReadyState.OPEN, Event.buttonRelease)], x.1 = .OPEN) → p₁.frames = p₁.calls) ∧
      ((∀ x ∈ [(ReadyState.OPEN, Event.keydown ⟨"ArrowUp", false⟩),
          (ReadyState.OPEN, Event.buttonRelease)], x.1 ≠ .OPEN) → p₁.frames = []) ∧
      ∀ rs e, ∃ p' sent,
        run initialPage ([(.OPEN, .keydown ⟨"ArrowUp", false⟩), (.OPEN, .buttonRelease)]
          ++ [(rs, e)]) = .ok p' ∧
        p'.calls = p₁.calls ++ sent ∧
        p'.frames = p₁.frames ++ (if rs = .OPEN then sent else []) :=
  input_state_independent_of_connection
    [(.OPEN, .keydown ⟨"ArrowUp", false⟩), (.OPEN, .buttonRelease)]
    [(.CLOSED, .keydown ⟨"ArrowUp", false⟩), (.OPEN, .buttonRelease)] rfl

end BreadboardRobot
